import Mathlib

/-!
Shallow embedding of the scriptedt story-card tool (src/scriptedt.py).

Text is modelled as List Char. Card files and the order file are modelled as
Option (List Char): none stands for a missing file, some content for a file
holding that content. The card directory is modelled as a function from the
card number to such an optional content.

The Python library functions used by the source are modelled for the ASCII
fragment the program manipulates: str.strip strips the ASCII whitespace
characters, int() accepts an optionally signed decimal numeral with
underscores between digits, str.split and str.join are literal separators.
-/

/-- The whitespace characters stripped by str.strip, ASCII fragment. -/
def isPySpace (c : Char) : Bool :=
  c == ' ' || c == '\t' || c == '\n' || c == '\r' || c == '\x0b' || c == '\x0c'

/-- Python str.lstrip with no argument: drop leading whitespace. -/
def pyStripLeft (l : List Char) : List Char :=
  l.dropWhile isPySpace

/-- Python str.rstrip with no argument: drop trailing whitespace. -/
def pyStripRight (l : List Char) : List Char :=
  (l.reverse.dropWhile isPySpace).reverse

/-- Python str.strip with no argument: drop whitespace at both ends. -/
def pyStrip (l : List Char) : List Char :=
  pyStripRight (pyStripLeft l)

/-- Python str.split with a one-character separator: always yields at least
one piece, adjacent separators yield empty pieces. -/
def pySplitOn (sep : Char) : List Char → List (List Char)
  | [] => [[]]
  | c :: cs =>
    if c = sep then [] :: pySplitOn sep cs
    else
      match pySplitOn sep cs with
      | [] => [[c]]
      | t :: ts => (c :: t) :: ts

/-- Python sep.join for a one-character separator. -/
def pyJoin (sep : Char) : List (List Char) → List Char
  | [] => []
  | [t] => t
  | t :: ts => t ++ sep :: pyJoin sep ts

/-- ASCII decimal digit test. -/
def isAsciiDigit (c : Char) : Bool :=
  48 ≤ c.toNat && c.toNat ≤ 57

/-- Numeric value of an ASCII digit. -/
def digitVal (c : Char) : Nat :=
  c.toNat - 48

/-- The ASCII digit with the given value, for values below ten. -/
def digitChar (n : Nat) : Char :=
  Char.ofNat (48 + n)

/-- Digit accumulator for the body of a Python int() literal: after the first
digit, every further character is a digit or a single underscore followed by
a digit. -/
def parseNatAux : List Char → Nat → Option Nat
  | [], acc => some acc
  | c :: cs, acc =>
    if isAsciiDigit c then parseNatAux cs (acc * 10 + digitVal c)
    else if c = '_' then
      match cs with
      | [] => none
      | c2 :: cs2 =>
        if isAsciiDigit c2 then parseNatAux cs2 (acc * 10 + digitVal c2)
        else none
    else none

/-- Unsigned part of a Python int() literal: a digit followed by digits with
optional single underscores between them. -/
def pyIntOfDigits : List Char → Option Nat
  | [] => none
  | c :: cs => if isAsciiDigit c then parseNatAux cs (digitVal c) else none

/-- Sign handling of Python int(s) after stripping. -/
def pyIntCore : List Char → Option Int
  | [] => none
  | c :: cs =>
    if c = '+' then (pyIntOfDigits cs).map (fun n => Int.ofNat n)
    else if c = '-' then (pyIntOfDigits cs).map (fun n => -Int.ofNat n)
    else (pyIntOfDigits (c :: cs)).map (fun n => Int.ofNat n)

/-- Python int(s) on a string, base ten, ASCII fragment: surrounding
whitespace is ignored, an optional sign precedes the digits; on any other
shape it raises, modelled as none. -/
def pyInt (s : List Char) : Option Int :=
  pyIntCore (pyStrip s)

/-- Fuel-driven core of decimal rendering, so that it reduces by kernel
computation; the fuel argument strictly bounds the rendered number. -/
def natToDigitsCore : Nat → Nat → List Char → List Char
  | 0, _, acc => acc
  | fuel + 1, n, acc =>
    if n < 10 then digitChar n :: acc
    else natToDigitsCore fuel (n / 10) (digitChar (n % 10) :: acc)

/-- Decimal rendering of a natural number, as Python str on a nonnegative
int produces it. -/
def natToDigits (n : Nat) : List Char :=
  natToDigitsCore (n + 1) n []

/-- Python str on an int: decimal digits, preceded by a minus sign when the
number is negative. -/
def intRepr (n : Int) : List Char :=
  if n < 0 then '-' :: natToDigits (-n).toNat else natToDigits n.toNat

/-- Python int applied to each piece of a split, failing as a whole when any
piece fails, as the list comprehension in load_card_order does. -/
def parseInts : List (List Char) → Option (List Int)
  | [] => some []
  | t :: ts => (pyInt t).bind (fun n => (parseInts ts).map (fun ns => n :: ns))

/-- The identity permutation list(range(1, 71)). -/
def identityOrder : List Int :=
  (List.range' 1 70).map (fun n => (n : Int))

/-- Project.load_card_order: read the order file, strip it, split on commas
and parse every piece as an int; on a missing file or a failing parse fall
back to the identity permutation. -/
def load_card_order (file : Option (List Char)) : List Int :=
  match file with
  | none => identityOrder
  | some text => (parseInts (pySplitOn ',' (pyStrip text))).getD identityOrder

/-- Project.save_card_order: the comma-joined decimal renderings. -/
def save_card_order (order : List Int) : List Char :=
  pyJoin ',' (order.map intRepr)

/-- The simultaneous assignment order[pos1], order[pos2] =
order[pos2], order[pos1] on a list. -/
def listSwap (l : List Int) (i j : Nat) : List Int :=
  (l.set i (l.getD j 0)).set j (l.getD i 0)

/-- Project.swap_cards: load the order, check both positions against the
loaded length, and on success write back the swapped order and report True;
otherwise leave the file untouched and report False. -/
def swap_cards (file : Option (List Char)) (pos1 pos2 : Int) :
    Option (List Char) × Bool :=
  let order := load_card_order file
  if 0 ≤ pos1 ∧ pos1 < (order.length : Int) ∧
      0 ≤ pos2 ∧ pos2 < (order.length : Int) then
    (some (save_card_order (listSwap order pos1.toNat pos2.toNat)), true)
  else
    (file, false)

/-- Project.get_card_title_from_file, stated on the optional content of the
addressed card file: none models a missing file. When the whole content is
nonblank and the stripped first line starts with the header marker, the
title is that line with the marker removed and both ends stripped. -/
def get_card_title (content : Option (List Char)) : List Char :=
  match content with
  | none => []
  | some content =>
    if pyStrip content = [] then []
    else
      let first_line := pyStrip ((pySplitOn '\n' content).headD [])
      if first_line.head? = some '#' then pyStrip (first_line.drop 1)
      else []

/-- Project.get_card_content: the text of the card file, empty when the file
is missing. -/
def get_card_content (content : Option (List Char)) : List Char :=
  content.getD []

/-- Project.is_card_written, stated on the optional content of the card
file: strip every line, keep the nonempty ones, and call the card written
when more than one line remains or the single remaining line does not start
with the header marker. -/
def is_card_written (content : Option (List Char)) : Bool :=
  let lines :=
    ((pySplitOn '\n' (get_card_content content)).map pyStrip).filter
      (fun l => decide (l ≠ []))
  decide (1 < lines.length) ||
    (decide (lines.length = 1) && !((lines.headD []).head? == some '#'))

/-- Project.rename_card, stated on the optional content of the card file;
the result is the file state after the call. With a nonblank title the
header line is replaced or inserted (with a separating blank line when body
text follows immediately), and a missing file is created with the header
and a blank line. With a blank title an existing header line is dropped
together with one following blank line; a missing file stays missing. -/
def rename_card (file : Option (List Char)) (new_title : List Char) :
    Option (List Char) :=
  if pyStrip new_title ≠ [] then
    match file with
    | some content =>
      let lines := pySplitOn '\n' content
      if lines ≠ [] ∧ (pyStrip (lines.headD [])).head? = some '#' then
        some (pyJoin '\n' (lines.set 0 ("# ".data ++ new_title)))
      else
        if lines ≠ [] ∧ pyStrip (lines.headD []) ≠ [] then
          some (pyJoin '\n' (("# ".data ++ new_title) :: [] :: lines))
        else
          some (pyJoin '\n' (("# ".data ++ new_title) :: lines))
    | none => some ("# ".data ++ new_title ++ "\n\n".data)
  else
    match file with
    | some content =>
      let lines := pySplitOn '\n' content
      if lines ≠ [] ∧ (pyStrip (lines.headD [])).head? = some '#' then
        let rest := lines.drop 1
        if rest ≠ [] ∧ pyStrip (rest.headD []) = [] then
          some (pyJoin '\n' (rest.drop 1))
        else
          some (pyJoin '\n' rest)
      else some content
    | none => none

/-- The body a card contributes to the screenplay and fountain exports: the
content with its first line removed, rejoined and stripped. -/
def card_body (content : List Char) : List Char :=
  pyStrip (pyJoin '\n' ((pySplitOn '\n' content).drop 1))

/-- The written and unwritten status markers exactly as they are spelled in
the source file (the source stores them in a damaged encoding; the unwritten
marker is the three characters 00E2 2014 2039 and the written marker is the
two characters 00E2 2014). -/
def statusWritten : List Char := "â—".data

/-- The unwritten status marker as spelled in the source file. -/
def statusUnwritten : List Char := "â—‹".data

/-- Python format of a nonnegative int with 02d: zero-padded to width two. -/
def pad2 (n : Nat) : List Char :=
  if n < 10 then '0' :: natToDigits n else natToDigits n

/-- The loop body of Project.export_outline over the loaded order, carrying
the one-based position. -/
def outlineEntries (store : Int → Option (List Char)) :
    List Int → Nat → List Char
  | [], _ => []
  | card_num :: rest, i =>
    let title := get_card_title (store card_num)
    let status :=
      if is_card_written (store card_num) then statusWritten
      else statusUnwritten
    let line :=
      if title ≠ [] then
        pad2 i ++ ". ".data ++ status ++ " ".data ++ title ++ "\n".data
      else
        pad2 i ++ ". ".data ++ status ++ " [Card ".data ++
          intRepr card_num ++ "]\n".data
    line ++ outlineEntries store rest (i + 1)

/-- Project.export_outline: a title line and a blank line, then one line per
position of the loaded order. -/
def export_outline (name : List Char) (order_file : Option (List Char))
    (store : Int → Option (List Char)) : List Char :=
  "# ".data ++ name ++ " - Story Outline\n\n".data ++
    outlineEntries store (load_card_order order_file) 1

/-- The loop body of Project.export_screenplay_md over the loaded order,
carrying the one-based position: cards whose stripped body is empty are
skipped. -/
def screenplayEntries (store : Int → Option (List Char)) :
    List Int → Nat → List Char
  | [], _ => []
  | card_num :: rest, i =>
    let body := card_body (get_card_content (store card_num))
    (if body ≠ [] then
      "## Scene ".data ++ natToDigits i ++ "\n\n".data ++ body ++
        "\n\n---\n\n".data
    else []) ++ screenplayEntries store rest (i + 1)

/-- Project.export_screenplay_md; the generation timestamp is passed in. -/
def export_screenplay_md (name now : List Char)
    (order_file : Option (List Char)) (store : Int → Option (List Char)) :
    List Char :=
  "# ".data ++ name ++ "\n\n".data ++ "Generated: ".data ++ now ++
    "\n\n".data ++ "---\n\n".data ++
    screenplayEntries store (load_card_order order_file) 1

/-- The loop body of Project.export_fountain over the loaded order, carrying
the one-based position: cards whose stripped body is empty are skipped. -/
def fountainEntries (store : Int → Option (List Char)) :
    List Int → Nat → List Char
  | [], _ => []
  | card_num :: rest, i =>
    let body := card_body (get_card_content (store card_num))
    (if body ≠ [] then
      "INT./EXT. SCENE ".data ++ natToDigits i ++ "\n\n".data ++ body ++
        "\n\n".data
    else []) ++ fountainEntries store rest (i + 1)

/-- Project.export_fountain; the draft date is passed in. -/
def export_fountain (name now : List Char)
    (order_file : Option (List Char)) (store : Int → Option (List Char)) :
    List Char :=
  "Title: ".data ++ name ++ "\n".data ++ "Author: \n".data ++
    "Draft date: ".data ++ now ++ "\n\n".data ++
    fountainEntries store (load_card_order order_file) 1

/-- One registry entry of the projects configuration. -/
structure ProjectEntry where
  name : List Char
  path : List Char
  last_opened : List Char
deriving DecidableEq

/-- The projects configuration document: the project mapping in insertion
order, keyed by slug, and the last-project pointer. -/
structure Config where
  projects : List (List Char × ProjectEntry)
  last_project : Option (List Char)
deriving DecidableEq

/-- ProjectManager.remove_project on the persisted configuration: when the
id is present, delete its entry, repoint last_project at the first remaining
id (or none) when it named the removed project, and save; when the id is
absent, raise ValueError, leaving the persisted configuration unchanged. -/
def remove_project (config : Config) (project_id : List Char) :
    Except (List Char) Config :=
  if project_id ∈ config.projects.map Prod.fst then
    let projects' := config.projects.filter
      (fun p => decide (p.1 ≠ project_id))
    let last' :=
      if config.last_project = some project_id then
        (projects'.map Prod.fst).head?
      else config.last_project
    Except.ok ⟨projects', last'⟩
  else
    Except.error ("Project not found".data)

/-- Spec wording of one outline line for an empty card at one-based position
i holding card number c: the position zero-padded to two digits, a dot and a
space, the unwritten marker, a space, and the bracketed card number. -/
def claimOutlineLine (i : Nat) (c : Int) : List Char :=
  pad2 i ++ ". ".data ++ statusUnwritten ++ " [Card ".data ++ intRepr c ++
    "]\n".data

/-- Spec wording of the outline body for a deck of empty cards: exactly one
line per position, in order of position. -/
def claimOutlineLines : List Int → Nat → List Char
  | [], _ => []
  | c :: cs, i => claimOutlineLine i c ++ claimOutlineLines cs (i + 1)

/-- A card directory equal to store everywhere except that card k holds v. -/
def updateStore (store : Int → Option (List Char)) (k : Int)
    (v : Option (List Char)) : Int → Option (List Char) :=
  fun c => if c = k then v else store c

example : load_card_order none = identityOrder := rfl
example : load_card_order (some "1,2".data) = [1, 2] := by decide
example : load_card_order (some " 1, 2,x".data) = identityOrder := by decide
example : load_card_order (some (save_card_order [5, -3, 8])) = [5, -3, 8] := by
  decide
example : (swap_cards (some "4,5,6".data) 0 2).1 = some "6,5,4".data := by decide
example : (swap_cards (some "4,5,6".data) 0 3).1 = some "4,5,6".data := by decide
example : get_card_title (some "# Hello\nbody".data) = "Hello".data := by decide
example : get_card_title (some "## X".data) = "# X".data := by decide
example : get_card_title (some "plain".data) = [] := by decide
example : get_card_title none = [] := by decide
example : is_card_written (some "# Title\n".data) = false := by decide
example : is_card_written (some "# Title\nSome body".data) = true := by decide
example : is_card_written (some "no header, one line".data) = true := by decide
example : rename_card none "Foo".data = some "# Foo\n\n".data := by decide
example : rename_card (some "# Old\n\nbody".data) "New".data =
    some "# New\n\nbody".data := by decide
example : rename_card (some "body text".data) "T".data =
    some "# T\n\nbody text".data := by decide
example : rename_card (some "# Old\n\nbody".data) " ".data =
    some "body".data := by decide
example : card_body "title\nbody here\n".data = "body here".data := by decide
example : card_body "only one line".data = [] := by decide
example :
    remove_project ⟨[("a".data, ⟨"A".data, "/a".data, "t".data⟩)], some "a".data⟩
      "a".data = Except.ok ⟨[], none⟩ := by rfl
example :
    remove_project ⟨[], none⟩ "a".data =
      Except.error "Project not found".data := by rfl

/-! Helper lemmas about dropWhile and the Python strip operations. -/

theorem dropWhile_append_of_forall {p : Char → Bool} {s : List Char}
    (l : List Char) (h : ∀ c ∈ s, p c = true) :
    (s ++ l).dropWhile p = l.dropWhile p := by
  induction s with
  | nil => rfl
  | cons c s ih =>
    have hc : p c = true := h c (List.mem_cons_self c s)
    simp only [List.cons_append, List.dropWhile_cons, hc, if_true]
    exact ih fun d hd => h d (List.mem_cons_of_mem c hd)

theorem dropWhile_append_of_ne_nil {p : Char → Bool} {s : List Char}
    (l : List Char) (h : s.dropWhile p ≠ []) :
    (s ++ l).dropWhile p = s.dropWhile p ++ l := by
  induction s with
  | nil => simp [List.dropWhile] at h
  | cons c s ih =>
    cases hc : p c with
    | true =>
      have h' : s.dropWhile p ≠ [] := by
        simpa [List.dropWhile_cons, hc] using h
      simp only [List.cons_append, List.dropWhile_cons, hc, if_true]
      exact ih h'
    | false =>
      simp [List.dropWhile_cons, hc]

theorem head?_dropWhile_false {p : Char → Bool} {l : List Char} {c : Char}
    (h : (l.dropWhile p).head? = some c) : p c = false := by
  induction l with
  | nil => simp [List.dropWhile] at h
  | cons a l ih =>
    cases ha : p a with
    | true =>
      rw [List.dropWhile_cons, if_pos ha] at h
      exact ih h
    | false =>
      rw [List.dropWhile_cons, if_neg (by simp [ha])] at h
      simp only [List.head?_cons, Option.some.injEq] at h
      exact h ▸ ha

theorem dropWhile_idem {p : Char → Bool} (l : List Char) :
    (l.dropWhile p).dropWhile p = l.dropWhile p := by
  cases e : l.dropWhile p with
  | nil => rfl
  | cons c cs =>
    have hc : p c = false := head?_dropWhile_false (by rw [e]; rfl)
    simp [List.dropWhile_cons, hc]

theorem pyStripRight_eq_nil_iff {l : List Char} :
    pyStripRight l = [] ↔ ∀ c ∈ l, isPySpace c = true := by
  unfold pyStripRight
  rw [List.reverse_eq_nil_iff, List.dropWhile_eq_nil_iff]
  constructor
  · intro h c hc
    exact h c (List.mem_reverse.mpr hc)
  · intro h c hc
    exact h c (List.mem_reverse.mp hc)

theorem pyStripRight_append {a b : List Char} (h : pyStripRight b ≠ []) :
    pyStripRight (a ++ b) = a ++ pyStripRight b := by
  have hb : b.reverse.dropWhile isPySpace ≠ [] := by
    intro e
    exact h (by simp [pyStripRight, e])
  unfold pyStripRight
  rw [List.reverse_append, dropWhile_append_of_ne_nil _ hb,
    List.reverse_append, List.reverse_reverse]

theorem pyStripRight_cons_of_nonspace {c : Char} {l : List Char}
    (h : isPySpace c = false) : pyStripRight (c :: l) = c :: pyStripRight l := by
  by_cases hl : pyStripRight l = []
  · have hsp : ∀ d ∈ l, isPySpace d = true := pyStripRight_eq_nil_iff.mp hl
    have : pyStripRight (c :: l) = [c] := by
      unfold pyStripRight
      rw [List.reverse_cons,
        dropWhile_append_of_forall [c] (fun d hd => hsp d (List.mem_reverse.mp hd))]
      simp [List.dropWhile_cons, h]
    rw [this, hl]
  · exact pyStripRight_append (a := [c]) hl

theorem pyStripRight_idem (l : List Char) :
    pyStripRight (pyStripRight l) = pyStripRight l := by
  unfold pyStripRight
  rw [List.reverse_reverse, dropWhile_idem]

theorem mem_pyStripRight {c : Char} {l : List Char} (h : c ∈ pyStripRight l) :
    c ∈ l := by
  unfold pyStripRight at h
  rw [List.mem_reverse] at h
  exact List.mem_reverse.mp ((List.dropWhile_sublist _).mem h)

theorem mem_pyStrip {c : Char} {l : List Char} (h : c ∈ pyStrip l) : c ∈ l := by
  unfold pyStrip pyStripLeft at h
  exact (List.dropWhile_sublist _).mem (mem_pyStripRight h)

theorem pyStrip_eq_nil_iff {l : List Char} :
    pyStrip l = [] ↔ ∀ c ∈ l, isPySpace c = true := by
  unfold pyStrip pyStripLeft
  constructor
  · intro h
    have hall : ∀ c ∈ l.dropWhile isPySpace, isPySpace c = true :=
      pyStripRight_eq_nil_iff.mp h
    have hnil : l.dropWhile isPySpace = [] := by
      cases e : l.dropWhile isPySpace with
      | nil => rfl
      | cons c cs =>
        have hc : isPySpace c = false := head?_dropWhile_false (by rw [e]; rfl)
        have : isPySpace c = true := hall c (by rw [e]; exact List.mem_cons_self c cs)
        rw [hc] at this
        exact absurd this (by simp)
    rw [List.dropWhile_eq_nil_iff] at hnil
    exact hnil
  · intro h
    rw [List.dropWhile_eq_nil_iff.mpr h]
    rfl

theorem pyStrip_append_space {s : List Char} (l : List Char)
    (h : ∀ c ∈ s, isPySpace c = true) : pyStrip (s ++ l) = pyStrip l := by
  unfold pyStrip pyStripLeft
  rw [dropWhile_append_of_forall l h]

theorem pyStrip_cons_of_nonspace {c : Char} {l : List Char}
    (h : isPySpace c = false) : pyStrip (c :: l) = c :: pyStripRight l := by
  unfold pyStrip pyStripLeft
  rw [List.dropWhile_cons, if_neg (by simp [h]), pyStripRight_cons_of_nonspace h]

theorem pyStrip_of_no_space {l : List Char}
    (h : ∀ c ∈ l, isPySpace c = false) : pyStrip l = l := by
  have hleft : l.dropWhile isPySpace = l := by
    cases l with
    | nil => rfl
    | cons c cs =>
      rw [List.dropWhile_cons,
        if_neg (by simp [h c (List.mem_cons_self c cs)])]
  have hright : pyStripRight l = l := by
    unfold pyStripRight
    cases e : l.reverse with
    | nil =>
      simp [List.reverse_eq_nil_iff.mp e]
    | cons c cs =>
      have hc : c ∈ l := List.mem_reverse.mp (by rw [e]; exact List.mem_cons_self c cs)
      rw [List.dropWhile_cons, if_neg (by simp [h c hc]), ← e,
        List.reverse_reverse]
  unfold pyStrip pyStripLeft
  rw [hleft, hright]

theorem pyStrip_pyStripRight (l : List Char) :
    pyStrip (pyStripRight l) = pyStrip l := by
  by_cases h : l.dropWhile isPySpace = []
  · have hall : ∀ c ∈ l, isPySpace c = true := List.dropWhile_eq_nil_iff.mp h
    have h1 : pyStrip l = [] := pyStrip_eq_nil_iff.mpr hall
    have h2 : pyStrip (pyStripRight l) = [] :=
      pyStrip_eq_nil_iff.mpr fun c hc => hall c (mem_pyStripRight hc)
    rw [h1, h2]
  · obtain ⟨c, m, e⟩ : ∃ c m, l.dropWhile isPySpace = c :: m := by
      cases e : l.dropWhile isPySpace with
      | nil => exact absurd e h
      | cons c m => exact ⟨c, m, rfl⟩
    have hc : isPySpace c = false := head?_dropWhile_false (by rw [e]; rfl)
    have hdecomp : l.takeWhile isPySpace ++ c :: m = l := by
      rw [← e]; exact List.takeWhile_append_dropWhile ..
    have htake : ∀ d ∈ l.takeWhile isPySpace, isPySpace d = true :=
      fun d hd => List.mem_takeWhile_imp hd
    have hrm : pyStripRight (c :: m) = c :: pyStripRight m :=
      pyStripRight_cons_of_nonspace hc
    have hsr : pyStripRight l = l.takeWhile isPySpace ++ c :: pyStripRight m := by
      conv_lhs => rw [← hdecomp]
      rw [pyStripRight_append (by rw [hrm]; simp), hrm]
    have hl : pyStrip l = c :: pyStripRight m := by
      conv_lhs => rw [← hdecomp]
      rw [pyStrip_append_space _ htake, pyStrip_cons_of_nonspace hc]
    rw [hsr, pyStrip_append_space _ htake, pyStrip_cons_of_nonspace hc,
      pyStripRight_idem, hl]

/-! Helper lemmas about the split and join operations. -/

theorem pySplitOn_ne_nil (sep : Char) (l : List Char) :
    pySplitOn sep l ≠ [] := by
  cases l with
  | nil => simp [pySplitOn]
  | cons c cs =>
    by_cases hc : c = sep
    · simp [pySplitOn, hc]
    · cases e : pySplitOn sep cs with
      | nil => simp [pySplitOn, hc, e]
      | cons t ts => simp [pySplitOn, hc, e]

theorem pySplitOn_append {sep : Char} {t : List Char} (l : List Char)
    (h : ∀ c ∈ t, c ≠ sep) :
    pySplitOn sep (t ++ l) =
      List.modifyHead (fun u => t ++ u) (pySplitOn sep l) := by
  induction t with
  | nil =>
    cases e : pySplitOn sep l with
    | nil => exact absurd e (pySplitOn_ne_nil sep l)
    | cons u us => simp [e]
  | cons c t ih =>
    have hc : c ≠ sep := h c (List.mem_cons_self c t)
    have ih' := ih fun d hd => h d (List.mem_cons_of_mem c hd)
    cases e2 : pySplitOn sep l with
    | nil => exact absurd e2 (pySplitOn_ne_nil sep l)
    | cons v vs =>
      rw [e2, List.modifyHead_cons] at ih'
      have hl : pySplitOn sep ((c :: t) ++ l) = (c :: (t ++ v)) :: vs := by
        simp only [List.cons_append, pySplitOn, if_neg hc, List.append_eq, ih']
      rw [hl]
      simp [e2]

theorem pySplitOn_no_sep {sep : Char} {l : List Char}
    (h : ∀ c ∈ l, c ≠ sep) : pySplitOn sep l = [l] := by
  have := pySplitOn_append [] h
  simpa [pySplitOn] using this

theorem pySplitOn_append_sep {sep : Char} {a : List Char} (r : List Char)
    (h : ∀ c ∈ a, c ≠ sep) :
    pySplitOn sep (a ++ sep :: r) = a :: pySplitOn sep r := by
  rw [pySplitOn_append _ h]
  have : pySplitOn sep (sep :: r) = [] :: pySplitOn sep r := by
    simp [pySplitOn]
  rw [this]
  simp

theorem pySplitOn_pyJoin {sep : Char} {ts : List (List Char)} (h1 : ts ≠ [])
    (h2 : ∀ t ∈ ts, ∀ c ∈ t, c ≠ sep) :
    pySplitOn sep (pyJoin sep ts) = ts := by
  induction ts with
  | nil => exact absurd rfl h1
  | cons t ts ih =>
    cases ts with
    | nil =>
      show pySplitOn sep (pyJoin sep [t]) = [t]
      rw [show pyJoin sep [t] = t from rfl]
      exact pySplitOn_no_sep (h2 t (List.mem_cons_self t []))
    | cons t2 ts2 =>
      have ht : ∀ c ∈ t, c ≠ sep := h2 t (List.mem_cons_self ..)
      have hrest : ∀ u ∈ t2 :: ts2, ∀ c ∈ u, c ≠ sep :=
        fun u hu => h2 u (List.mem_cons_of_mem t hu)
      rw [show pyJoin sep (t :: t2 :: ts2) = t ++ sep :: pyJoin sep (t2 :: ts2)
          from rfl,
        pySplitOn_append_sep _ ht, ih (by simp) hrest]

theorem pyJoin_pySplitOn (sep : Char) (l : List Char) :
    pyJoin sep (pySplitOn sep l) = l := by
  induction l with
  | nil => rfl
  | cons c cs ih =>
    by_cases hc : c = sep
    · subst hc
      rw [show pySplitOn c (c :: cs) = [] :: pySplitOn c cs by simp [pySplitOn]]
      cases e : pySplitOn c cs with
      | nil => exact absurd e (pySplitOn_ne_nil c cs)
      | cons u us =>
        rw [show pyJoin c ([] :: u :: us) = [] ++ c :: pyJoin c (u :: us)
            from rfl]
        rw [e] at ih
        simp [ih]
    · cases e : pySplitOn sep cs with
      | nil => exact absurd e (pySplitOn_ne_nil sep cs)
      | cons u us =>
        rw [show pySplitOn sep (c :: cs) = (c :: u) :: us by
          simp [pySplitOn, hc, e]]
        rw [e] at ih
        cases us with
        | nil =>
          rw [show pyJoin sep [c :: u] = c :: u from rfl]
          rw [show pyJoin sep [u] = u from rfl] at ih
          rw [ih]
        | cons v vs =>
          rw [show pyJoin sep ((c :: u) :: v :: vs) =
            (c :: u) ++ sep :: pyJoin sep (v :: vs) from rfl]
          rw [show pyJoin sep (u :: v :: vs) =
            u ++ sep :: pyJoin sep (v :: vs) from rfl] at ih
          simp only [List.cons_append, ih]

theorem length_pySplitOn (sep : Char) (l : List Char) :
    (pySplitOn sep l).length = l.count sep + 1 := by
  induction l with
  | nil => simp [pySplitOn]
  | cons c cs ih =>
    by_cases hc : c = sep
    · subst hc
      simp [pySplitOn, ih, List.count_cons]
    · cases e : pySplitOn sep cs with
      | nil => exact absurd e (pySplitOn_ne_nil sep cs)
      | cons u us =>
        rw [e] at ih
        simp only [pySplitOn, if_neg hc, e]
        simp only [List.length_cons] at ih ⊢
        rw [List.count_cons]
        simp [ih, hc]

theorem pySplitOn_mem_spec {sep : Char} {l t : List Char} {c : Char}
    (ht : t ∈ pySplitOn sep l) (hc : c ∈ t) : c ∈ l ∧ c ≠ sep := by
  induction l generalizing t with
  | nil =>
    simp only [pySplitOn, List.mem_singleton] at ht
    subst ht
    exact absurd hc (List.not_mem_nil c)
  | cons a as ih =>
    by_cases ha : a = sep
    · rw [show pySplitOn sep (a :: as) = [] :: pySplitOn sep as by
        simp [pySplitOn, ha]] at ht
      cases List.mem_cons.mp ht with
      | inl h1 =>
        subst h1
        exact absurd hc (List.not_mem_nil c)
      | inr h2 =>
        obtain ⟨hmem, hne⟩ := ih h2 hc
        exact ⟨List.mem_cons_of_mem a hmem, hne⟩
    · cases e : pySplitOn sep as with
      | nil => exact absurd e (pySplitOn_ne_nil sep as)
      | cons u us =>
        rw [show pySplitOn sep (a :: as) = (a :: u) :: us by
          simp [pySplitOn, ha, e]] at ht
        cases List.mem_cons.mp ht with
        | inl h1 =>
          subst h1
          cases List.mem_cons.mp hc with
          | inl h2 =>
            subst h2
            exact ⟨List.mem_cons_self .., ha⟩
          | inr h2 =>
            have hu : u ∈ pySplitOn sep as := by
              rw [e]; exact List.mem_cons_self ..
            obtain ⟨hmem, hne⟩ := ih hu h2
            exact ⟨List.mem_cons_of_mem a hmem, hne⟩
        | inr h1 =>
          have hu : t ∈ pySplitOn sep as := by
            rw [e]; exact List.mem_cons_of_mem u h1
          obtain ⟨hmem, hne⟩ := ih hu hc
          exact ⟨List.mem_cons_of_mem a hmem, hne⟩

theorem mem_of_mem_pySplitOn {sep c : Char} {t l : List Char}
    (ht : t ∈ pySplitOn sep l) (hc : c ∈ t) : c ∈ l :=
  (pySplitOn_mem_spec ht hc).1

theorem ne_sep_of_mem_pySplitOn {sep c : Char} {t l : List Char}
    (ht : t ∈ pySplitOn sep l) (hc : c ∈ t) : c ≠ sep :=
  (pySplitOn_mem_spec ht hc).2

theorem headD_pySplitOn_mem (sep : Char) (l : List Char) :
    (pySplitOn sep l).headD [] ∈ pySplitOn sep l := by
  cases e : pySplitOn sep l with
  | nil => exact absurd e (pySplitOn_ne_nil sep l)
  | cons u us => simp

/-! Helper lemmas about digit characters, parsing and rendering. -/

theorem digitChar_spec {n : Nat} (h : n < 10) :
    isAsciiDigit (digitChar n) = true ∧ digitVal (digitChar n) = n := by
  interval_cases n <;> exact ⟨rfl, rfl⟩

theorem char_ne_of_toNat {c d : Char} {k : Nat} (hd : d.toNat = k)
    (h : c.toNat ≠ k) : c ≠ d :=
  fun e => h (e ▸ hd)

theorem beq_eq_false_of_ne {c d : Char} (h : c ≠ d) : (c == d) = false := by
  cases hcd : c == d
  · rfl
  · exact absurd (eq_of_beq hcd) h

theorem isAsciiDigit_bounds {c : Char} (h : isAsciiDigit c = true) :
    48 ≤ c.toNat ∧ c.toNat ≤ 57 := by
  unfold isAsciiDigit at h
  simp only [Bool.and_eq_true, decide_eq_true_eq] at h
  exact h

theorem digit_not_space {c : Char} (h : isAsciiDigit c = true) :
    isPySpace c = false := by
  obtain ⟨h1, h2⟩ := isAsciiDigit_bounds h
  unfold isPySpace
  rw [beq_eq_false_of_ne (char_ne_of_toNat (show (' ').toNat = 32 from rfl) (by omega)),
    beq_eq_false_of_ne (char_ne_of_toNat (show ('\t').toNat = 9 from rfl) (by omega)),
    beq_eq_false_of_ne (char_ne_of_toNat (show ('\n').toNat = 10 from rfl) (by omega)),
    beq_eq_false_of_ne (char_ne_of_toNat (show ('\r').toNat = 13 from rfl) (by omega)),
    beq_eq_false_of_ne (char_ne_of_toNat (show ('\x0b').toNat = 11 from rfl) (by omega)),
    beq_eq_false_of_ne (char_ne_of_toNat (show ('\x0c').toNat = 12 from rfl) (by omega))]
  rfl

theorem digit_ne_comma {c : Char} (h : isAsciiDigit c = true) : c ≠ ',' := by
  obtain ⟨h1, h2⟩ := isAsciiDigit_bounds h
  exact char_ne_of_toNat (show (',').toNat = 44 from rfl) (by omega)

theorem digit_ne_newline {c : Char} (h : isAsciiDigit c = true) : c ≠ '\n' := by
  obtain ⟨h1, h2⟩ := isAsciiDigit_bounds h
  exact char_ne_of_toNat (show ('\n').toNat = 10 from rfl) (by omega)

theorem digit_ne_plus {c : Char} (h : isAsciiDigit c = true) : c ≠ '+' := by
  obtain ⟨h1, h2⟩ := isAsciiDigit_bounds h
  exact char_ne_of_toNat (show ('+').toNat = 43 from rfl) (by omega)

theorem digit_ne_minus {c : Char} (h : isAsciiDigit c = true) : c ≠ '-' := by
  obtain ⟨h1, h2⟩ := isAsciiDigit_bounds h
  exact char_ne_of_toNat (show ('-').toNat = 45 from rfl) (by omega)

theorem parseNatAux_all_digits {ds : List Char}
    (h : ∀ c ∈ ds, isAsciiDigit c = true) (a : Nat) :
    parseNatAux ds a = some (ds.foldl (fun x c => x * 10 + digitVal c) a) := by
  induction ds generalizing a with
  | nil => rfl
  | cons c cs ih =>
    have hc : isAsciiDigit c = true := h c (List.mem_cons_self c cs)
    rw [show parseNatAux (c :: cs) a =
        parseNatAux cs (a * 10 + digitVal c) by
      rw [parseNatAux.eq_def]; simp [hc]]
    rw [ih fun d hd => h d (List.mem_cons_of_mem c hd)]
    rfl

theorem natToDigitsCore_eq (n : Nat) : ∀ fuel acc, n < fuel →
    natToDigitsCore fuel n acc = natToDigits n ++ acc := by
  induction n using Nat.strong_induction_on with
  | _ n ih =>
    intro fuel acc hf
    match fuel with
    | fuel + 1 =>
      by_cases h10 : n < 10
      · simp [natToDigitsCore, natToDigits, h10]
      · have hd : n / 10 < n := Nat.div_lt_self (by omega) (by omega)
        have step : natToDigitsCore (fuel + 1) n acc =
            natToDigitsCore fuel (n / 10) (digitChar (n % 10) :: acc) := by
          simp [natToDigitsCore, h10]
        have step2 : natToDigits n =
            natToDigits (n / 10) ++ [digitChar (n % 10)] := by
          rw [show natToDigits n =
              natToDigitsCore n (n / 10) [digitChar (n % 10)] by
            simp [natToDigits, natToDigitsCore, h10]]
          exact ih (n / 10) hd n [digitChar (n % 10)] (by omega)
        rw [step, ih (n / 10) hd fuel (digitChar (n % 10) :: acc) (by omega),
          step2, List.append_assoc]
        rfl

theorem natToDigits_step {n : Nat} (h : ¬n < 10) :
    natToDigits n = natToDigits (n / 10) ++ [digitChar (n % 10)] := by
  rw [show natToDigits n = natToDigitsCore n (n / 10) [digitChar (n % 10)] by
    simp [natToDigits, natToDigitsCore, h]]
  exact natToDigitsCore_eq (n / 10) n [digitChar (n % 10)]
    (Nat.div_lt_self (by omega) (by omega))

theorem natToDigits_lt10 {n : Nat} (h : n < 10) :
    natToDigits n = [digitChar n] := by
  simp [natToDigits, natToDigitsCore, h]

theorem natToDigits_all_digits (n : Nat) :
    ∀ c ∈ natToDigits n, isAsciiDigit c = true := by
  induction n using Nat.strong_induction_on with
  | _ n ih =>
    by_cases h10 : n < 10
    · rw [natToDigits_lt10 h10]
      intro c hc
      rw [List.mem_singleton.mp hc]
      exact (digitChar_spec h10).1
    · rw [natToDigits_step h10]
      intro c hc
      rcases List.mem_append.mp hc with h1 | h1
      · exact ih (n / 10) (Nat.div_lt_self (by omega) (by omega)) c h1
      · rw [List.mem_singleton.mp h1]
        exact (digitChar_spec (Nat.mod_lt n (by omega))).1

theorem natToDigits_ne_nil (n : Nat) : natToDigits n ≠ [] := by
  by_cases h10 : n < 10
  · rw [natToDigits_lt10 h10]; simp
  · rw [natToDigits_step h10]; simp

theorem natToDigits_val (n : Nat) :
    (natToDigits n).foldl (fun x c => x * 10 + digitVal c) 0 = n := by
  induction n using Nat.strong_induction_on with
  | _ n ih =>
    by_cases h10 : n < 10
    · rw [natToDigits_lt10 h10]
      simp [(digitChar_spec h10).2]
    · rw [natToDigits_step h10, List.foldl_append,
        ih (n / 10) (Nat.div_lt_self (by omega) (by omega))]
      simp only [List.foldl_cons, List.foldl_nil,
        (digitChar_spec (Nat.mod_lt n (by omega))).2]
      omega

theorem pyIntOfDigits_natToDigits (n : Nat) :
    pyIntOfDigits (natToDigits n) = some n := by
  cases e : natToDigits n with
  | nil => exact absurd e (natToDigits_ne_nil n)
  | cons c cs =>
    have hall : ∀ d ∈ c :: cs, isAsciiDigit d = true := by
      rw [← e]; exact natToDigits_all_digits n
    have hc : isAsciiDigit c = true := hall c (List.mem_cons_self c cs)
    rw [show pyIntOfDigits (c :: cs) = parseNatAux cs (digitVal c) by
      simp [pyIntOfDigits, hc]]
    rw [parseNatAux_all_digits (fun d hd => hall d (List.mem_cons_of_mem c hd))]
    have hv := natToDigits_val n
    rw [e] at hv
    simp only [List.foldl_cons] at hv
    rw [show (0 : Nat) * 10 + digitVal c = digitVal c by omega] at hv
    rw [hv]

theorem intRepr_chars {n : Int} :
    ∀ c ∈ intRepr n, isPySpace c = false ∧ c ≠ ',' ∧ c ≠ '\n' := by
  intro c hc
  unfold intRepr at hc
  by_cases hn : n < 0
  · rw [if_pos hn] at hc
    rcases List.mem_cons.mp hc with rfl | h1
    · exact ⟨rfl, by decide, by decide⟩
    · have hd := natToDigits_all_digits (-n).toNat c h1
      exact ⟨digit_not_space hd, digit_ne_comma hd, digit_ne_newline hd⟩
  · rw [if_neg hn] at hc
    have hd := natToDigits_all_digits n.toNat c hc
    exact ⟨digit_not_space hd, digit_ne_comma hd, digit_ne_newline hd⟩

theorem pyInt_intRepr (n : Int) : pyInt (intRepr n) = some n := by
  have hstrip : pyStrip (intRepr n) = intRepr n :=
    pyStrip_of_no_space fun c hc => (intRepr_chars c hc).1
  by_cases hn : n < 0
  · have e : intRepr n = '-' :: natToDigits (-n).toNat := by
      simp [intRepr, hn]
    rw [pyInt, hstrip, e]
    rw [show pyIntCore ('-' :: natToDigits (-n).toNat) =
        (pyIntOfDigits (natToDigits (-n).toNat)).map (fun k => -Int.ofNat k) by
      simp [pyIntCore]]
    rw [pyIntOfDigits_natToDigits, Option.map_some']
    congr 1
    simp only [Int.ofNat_eq_coe]
    omega
  · have e : intRepr n = natToDigits n.toNat := by
      simp [intRepr, hn]
    rw [pyInt, hstrip, e]
    cases e2 : natToDigits n.toNat with
    | nil => exact absurd e2 (natToDigits_ne_nil n.toNat)
    | cons c cs =>
      have hc : isAsciiDigit c = true := by
        have := natToDigits_all_digits n.toNat c
        rw [e2] at this
        exact this (List.mem_cons_self c cs)
      rw [show pyIntCore (c :: cs) =
          (pyIntOfDigits (c :: cs)).map (fun k => Int.ofNat k) by
        simp [pyIntCore, if_neg (digit_ne_plus hc), if_neg (digit_ne_minus hc)]]
      rw [← e2, pyIntOfDigits_natToDigits, Option.map_some']
      congr 1
      simp only [Int.ofNat_eq_coe]
      omega

/-! Round trip of the order through the persisted text. -/

theorem parseInts_map_intRepr (l : List Int) :
    parseInts (l.map intRepr) = some l := by
  induction l with
  | nil => rfl
  | cons n ns ih =>
    rw [List.map_cons, show parseInts (intRepr n :: ns.map intRepr) =
      (pyInt (intRepr n)).bind
        (fun k => (parseInts (ns.map intRepr)).map (fun ks => k :: ks)) from rfl,
      pyInt_intRepr, ih]
    rfl

theorem mem_pyJoin {sep : Char} {ts : List (List Char)} {c : Char}
    (hc : c ∈ pyJoin sep ts) : c = sep ∨ ∃ t ∈ ts, c ∈ t := by
  induction ts with
  | nil => simp [pyJoin] at hc
  | cons t ts ih =>
    cases ts with
    | nil =>
      right
      exact ⟨t, List.mem_cons_self .., hc⟩
    | cons t2 ts2 =>
      rw [show pyJoin sep (t :: t2 :: ts2) = t ++ sep :: pyJoin sep (t2 :: ts2)
          from rfl] at hc
      rcases List.mem_append.mp hc with h | h
      · right; exact ⟨t, List.mem_cons_self .., h⟩
      · rcases List.mem_cons.mp h with rfl | h2
        · left; rfl
        · rcases ih h2 with h3 | ⟨u, hu, hcu⟩
          · left; exact h3
          · right; exact ⟨u, List.mem_cons_of_mem t hu, hcu⟩

theorem save_card_order_no_space {l : List Int} :
    ∀ c ∈ save_card_order l, isPySpace c = false := by
  intro c hc
  unfold save_card_order at hc
  rcases mem_pyJoin hc with rfl | ⟨t, ht, hct⟩
  · decide
  · obtain ⟨n, _, rfl⟩ := List.mem_map.mp ht
    exact (intRepr_chars c hct).1

theorem load_save (l : List Int) (h : l ≠ []) :
    load_card_order (some (save_card_order l)) = l := by
  have hstrip : pyStrip (save_card_order l) = save_card_order l :=
    pyStrip_of_no_space save_card_order_no_space
  have hpieces : ∀ t ∈ l.map intRepr, ∀ c ∈ t, c ≠ ',' := by
    intro t ht c hct
    obtain ⟨n, _, rfl⟩ := List.mem_map.mp ht
    exact (intRepr_chars c hct).2.1
  rw [show load_card_order (some (save_card_order l)) =
      (parseInts (pySplitOn ',' (pyStrip (save_card_order l)))).getD
        identityOrder from rfl,
    hstrip]
  unfold save_card_order
  rw [pySplitOn_pyJoin (by simp [h]) hpieces, parseInts_map_intRepr]
  rfl

/-! The swap operation on lists. -/

theorem getD_set_self {l : List Int} {n : Nat} (a : Int) (h : n < l.length) :
    (l.set n a).getD n 0 = a := by
  induction l generalizing n with
  | nil => simp at h
  | cons x xs ih =>
    cases n with
    | zero => rfl
    | succ k =>
      have hk : k < xs.length := by simpa using h
      simpa using ih hk

theorem set_getD_self {l : List Int} {n : Nat} (h : n < l.length) :
    l.set n (l.getD n 0) = l := by
  induction l generalizing n with
  | nil => rfl
  | cons x xs ih =>
    cases n with
    | zero => rfl
    | succ k =>
      have hk : k < xs.length := by simpa using h
      simpa using ih hk

theorem listSwap_zero_zero (l : List Int) : listSwap l 0 0 = l := by
  cases l with
  | nil => rfl
  | cons x xs => simp [listSwap]

theorem listSwap_zero_succ (x : Int) (xs : List Int) (m : Nat) :
    listSwap (x :: xs) 0 (m + 1) = xs.getD m 0 :: xs.set m x := by
  simp [listSwap]

theorem listSwap_succ_zero (x : Int) (xs : List Int) (n : Nat) :
    listSwap (x :: xs) (n + 1) 0 = xs.getD n 0 :: xs.set n x := by
  simp [listSwap]

theorem listSwap_cons_succ (x : Int) (xs : List Int) (n m : Nat) :
    listSwap (x :: xs) (n + 1) (m + 1) = x :: listSwap xs n m := by
  simp [listSwap]

theorem length_listSwap (l : List Int) (i j : Nat) :
    (listSwap l i j).length = l.length := by
  simp [listSwap]

theorem listSwap_listSwap {l : List Int} {i j : Nat} (hi : i < l.length)
    (hj : j < l.length) : listSwap (listSwap l i j) i j = l := by
  induction l generalizing i j with
  | nil => simp at hi
  | cons x xs ih =>
    cases i with
    | zero =>
      cases j with
      | zero => rw [listSwap_zero_zero, listSwap_zero_zero]
      | succ m =>
        have hm : m < xs.length := by simpa using hj
        rw [listSwap_zero_succ, listSwap_zero_succ,
          getD_set_self x hm, List.set_set, set_getD_self hm]
    | succ n =>
      cases j with
      | zero =>
        have hn : n < xs.length := by simpa using hi
        rw [listSwap_succ_zero, listSwap_succ_zero,
          getD_set_self x hn, List.set_set, set_getD_self hn]
      | succ m =>
        rw [listSwap_cons_succ, listSwap_cons_succ,
          ih (by simpa using hi) (by simpa using hj)]

theorem getD_cons_set_perm {xs : List Int} {m : Nat} (x : Int)
    (hm : m < xs.length) :
    List.Perm (xs.getD m 0 :: xs.set m x) (x :: xs) := by
  induction xs generalizing m with
  | nil => simp at hm
  | cons y ys ih =>
    cases m with
    | zero => exact List.Perm.swap x y ys
    | succ k =>
      have hk : k < ys.length := by simpa using hm
      have h1 : List.Perm (ys.getD k 0 :: y :: ys.set k x)
          (y :: ys.getD k 0 :: ys.set k x) :=
        List.Perm.swap y (ys.getD k 0) (ys.set k x)
      have h2 := (ih hk).cons y
      have h3 : List.Perm (y :: x :: ys) (x :: y :: ys) :=
        List.Perm.swap x y ys
      simpa using h1.trans (h2.trans h3)

theorem listSwap_perm {l : List Int} {i j : Nat} (hi : i < l.length)
    (hj : j < l.length) : List.Perm (listSwap l i j) l := by
  induction l generalizing i j with
  | nil => simp at hi
  | cons x xs ih =>
    cases i with
    | zero =>
      cases j with
      | zero =>
        rw [listSwap_zero_zero]
      | succ m =>
        rw [listSwap_zero_succ]
        exact getD_cons_set_perm x (by simpa using hj)
    | succ n =>
      cases j with
      | zero =>
        rw [listSwap_succ_zero]
        exact getD_cons_set_perm x (by simpa using hi)
      | succ m =>
        rw [listSwap_cons_succ]
        exact (ih (by simpa using hi) (by simpa using hj)).cons x

theorem identityOrder_length : identityOrder.length = 70 := rfl

example : pyInt "  42 ".data = some 42 := by decide
example : pyInt "-7".data = some (-7) := by decide
example : pyInt "1_0".data = some 10 := by decide
example : pyInt "1_".data = none := by decide
example : pyInt "".data = none := by decide
example : pyInt "+3".data = some 3 := by decide
example : pyInt "3a".data = none := by decide
example : intRepr (-12) = "-12".data := by decide
example : intRepr 70 = "70".data := by decide
example : pySplitOn ',' "1,,2".data = ["1".data, [], "2".data] := by decide
example : pyJoin ',' ["1".data, "23".data] = "1,23".data := by decide
example : pyStrip "  a b ".data = "a b".data := by decide

/-! Helper lemmas about titles, bodies and export line counts. -/

theorem get_card_title_no_newline (content : Option (List Char)) :
    ∀ c ∈ get_card_title content, c ≠ '\n' := by
  intro c hc
  match content with
  | none => simp [get_card_title] at hc
  | some text =>
    simp only [get_card_title] at hc
    by_cases h1 : pyStrip text = []
    · rw [if_pos h1] at hc
      simp at hc
    · rw [if_neg h1] at hc
      by_cases h2 :
          (pyStrip ((pySplitOn '\n' text).headD [])).head? = some '#'
      · rw [if_pos h2] at hc
        have h3 : c ∈ (pyStrip ((pySplitOn '\n' text).headD [])).drop 1 :=
          mem_pyStrip hc
        have h4 : c ∈ pyStrip ((pySplitOn '\n' text).headD []) :=
          List.drop_subset 1 _ h3
        have h5 : c ∈ (pySplitOn '\n' text).headD [] := mem_pyStrip h4
        exact ne_sep_of_mem_pySplitOn (headD_pySplitOn_mem '\n' text) h5
      · rw [if_neg h2] at hc
        simp at hc

theorem pad2_no_newline (n : Nat) : ∀ c ∈ pad2 n, c ≠ '\n' := by
  intro c hc
  unfold pad2 at hc
  by_cases h : n < 10
  · rw [if_pos h] at hc
    rcases List.mem_cons.mp hc with rfl | h1
    · decide
    · exact digit_ne_newline (natToDigits_all_digits n c h1)
  · rw [if_neg h] at hc
    exact digit_ne_newline (natToDigits_all_digits n c hc)

theorem count_nl_eq_zero {l : List Char} (h : ∀ c ∈ l, c ≠ '\n') :
    l.count '\n' = 0 :=
  List.count_eq_zero.mpr fun hm => (h _ hm) rfl

theorem card_body_first_irrelevant {a : List Char} (r : List Char)
    (h : ∀ c ∈ a, c ≠ '\n') : card_body (a ++ '\n' :: r) = pyStrip r := by
  unfold card_body
  rw [pySplitOn_append_sep r h,
    show (a :: pySplitOn '\n' r).drop 1 = pySplitOn '\n' r from rfl,
    pyJoin_pySplitOn]

theorem card_body_single {a : List Char} (h : ∀ c ∈ a, c ≠ '\n') :
    card_body a = [] := by
  unfold card_body
  rw [pySplitOn_no_sep h]
  rfl

theorem screenplayEntries_congr {s1 s2 : Int → Option (List Char)}
    (h : ∀ c, card_body (get_card_content (s1 c)) =
      card_body (get_card_content (s2 c)))
    (ord : List Int) (i : Nat) :
    screenplayEntries s1 ord i = screenplayEntries s2 ord i := by
  induction ord generalizing i with
  | nil => rfl
  | cons c cs ih =>
    simp only [screenplayEntries]
    rw [h c, ih]

theorem fountainEntries_congr {s1 s2 : Int → Option (List Char)}
    (h : ∀ c, card_body (get_card_content (s1 c)) =
      card_body (get_card_content (s2 c)))
    (ord : List Int) (i : Nat) :
    fountainEntries s1 ord i = fountainEntries s2 ord i := by
  induction ord generalizing i with
  | nil => rfl
  | cons c cs ih =>
    simp only [fountainEntries]
    rw [h c, ih]

theorem outlineEntries_count_nl (store : Int → Option (List Char))
    (ord : List Int) : ∀ i : Nat,
    (outlineEntries store ord i).count '\n' = ord.length := by
  induction ord with
  | nil => intro i; rfl
  | cons c cs ih =>
    intro i
    simp only [outlineEntries]
    by_cases ht : get_card_title (store c) ≠ []
    · rw [if_pos ht]
      rw [List.count_append, ih (i + 1)]
      have hline : (pad2 i ++ ". ".data ++
          (if is_card_written (store c) then statusWritten
            else statusUnwritten) ++ " ".data ++ get_card_title (store c) ++
          "\n".data).count '\n' = 1 := by
        simp only [List.count_append]
        rw [count_nl_eq_zero (pad2_no_newline i),
          count_nl_eq_zero (l := ". ".data) (by decide),
          count_nl_eq_zero (get_card_title_no_newline (store c)),
          count_nl_eq_zero (l := " ".data) (by decide)]
        have hstat : (if is_card_written (store c) then statusWritten
            else statusUnwritten).count '\n' = 0 := by
          by_cases hw : is_card_written (store c)
          · rw [if_pos hw]; decide
          · rw [if_neg hw]; decide
        rw [hstat]
        decide
      rw [hline]
      simp [List.length_cons]
      omega
    · rw [if_neg ht]
      rw [List.count_append, ih (i + 1)]
      have hline : (pad2 i ++ ". ".data ++
          (if is_card_written (store c) then statusWritten
            else statusUnwritten) ++ " [Card ".data ++ intRepr c ++
          "]\n".data).count '\n' = 1 := by
        simp only [List.count_append]
        rw [count_nl_eq_zero (pad2_no_newline i),
          count_nl_eq_zero (l := ". ".data) (by decide),
          count_nl_eq_zero (l := " [Card ".data) (by decide),
          count_nl_eq_zero (l := intRepr c)
            (fun d hd => (intRepr_chars d hd).2.2)]
        have hstat : (if is_card_written (store c) then statusWritten
            else statusUnwritten).count '\n' = 0 := by
          by_cases hw : is_card_written (store c)
          · rw [if_pos hw]; decide
          · rw [if_neg hw]; decide
        rw [hstat]
        decide
      rw [hline]
      simp [List.length_cons]
      omega

theorem outlineEntries_empty_deck (store : Int → Option (List Char))
    (htitle : ∀ c, get_card_title (store c) = [])
    (hwrit : ∀ c, is_card_written (store c) = false)
    (ord : List Int) : ∀ i : Nat,
    outlineEntries store ord i = claimOutlineLines ord i := by
  induction ord with
  | nil => intro i; rfl
  | cons c cs ih =>
    intro i
    simp only [outlineEntries, htitle c, hwrit c]
    rw [show claimOutlineLines (c :: cs) i =
      claimOutlineLine i c ++ claimOutlineLines cs (i + 1) from rfl, ih (i + 1)]
    simp [claimOutlineLine]

/-- The written predicate, in terms of the nonblank lines of the content:
true exactly when more than one nonblank line remains or the single
remaining nonblank line, stripped, does not start with the header marker. -/
theorem is_card_written_iff (content : List Char) :
    is_card_written (some content) = true ↔
      (1 < ((pySplitOn '\n' content).filter
          (fun l => decide (pyStrip l ≠ []))).length ∨
        (((pySplitOn '\n' content).filter
            (fun l => decide (pyStrip l ≠ []))).length = 1 ∧
          ¬(pyStrip (((pySplitOn '\n' content).filter
              (fun l => decide (pyStrip l ≠ []))).headD [])).head? =
            some '#')) := by
  have hswap : ((pySplitOn '\n' content).map pyStrip).filter
      (fun l => decide (l ≠ [])) =
      ((pySplitOn '\n' content).filter
        (fun l => decide (pyStrip l ≠ []))).map pyStrip := by
    rw [List.filter_map]
    rfl
  simp only [is_card_written, get_card_content, Option.getD_some,
    Bool.or_eq_true, Bool.and_eq_true, decide_eq_true_eq,
    Bool.not_eq_true', beq_eq_false_iff_ne]
  rw [hswap, List.length_map]
  constructor
  · rintro (h1 | ⟨h1, h2⟩)
    · exact Or.inl h1
    · refine Or.inr ⟨h1, ?_⟩
      cases e : (pySplitOn '\n' content).filter
          (fun l => decide (pyStrip l ≠ [])) with
      | nil =>
        rw [e] at h1
        simp at h1
      | cons x xs =>
        rw [e] at h2
        simpa using h2
  · rintro (h1 | ⟨h1, h2⟩)
    · exact Or.inl h1
    · refine Or.inr ⟨h1, ?_⟩
      cases e : (pySplitOn '\n' content).filter
          (fun l => decide (pyStrip l ≠ [])) with
      | nil =>
        rw [e] at h1
        simp at h1
      | cons x xs =>
        rw [e] at h2
        simpa using h2

/-! Claim theorems. -/

/-- Claim C1 counterexample: the persisted content 1,2 parses but is not a
permutation of the range from 1 to 70 (wrong number of entries), yet load
does not replace it by the identity permutation: it returns the two-element
list, so the loaded order is not always of length 70. -/
theorem c1_counterexample :
    load_card_order (some "1,2".data) ≠ identityOrder ∧
      (load_card_order (some "1,2".data)).length ≠ 70 := by
  decide

/-- Claim C1 amended: load falls back to the identity permutation exactly on
a missing file or on content whose comma-separated pieces do not all parse
as Python ints; content whose pieces all parse is returned exactly as
parsed, with no validation of count, range or duplicates. -/
theorem c1_load_fallback (text : List Char) :
    load_card_order none = identityOrder ∧
    (parseInts (pySplitOn ',' (pyStrip text)) = none →
      load_card_order (some text) = identityOrder) ∧
    (∀ l, parseInts (pySplitOn ',' (pyStrip text)) = some l →
      load_card_order (some text) = l) := by
  refine ⟨rfl, ?_, ?_⟩
  · intro h
    simp [load_card_order, h]
  · intro l h
    simp [load_card_order, h]

/-- Claim C1 amended, witness: a non-integer token falls back to the
identity permutation, and a duplicated wrong-length list is kept as is. -/
theorem c1_witness :
    load_card_order (some "1,1,x".data) = identityOrder ∧
      load_card_order (some "2,2".data) = [2, 2] :=
  ⟨(c1_load_fallback "1,1,x".data).2.1 (by decide),
   (c1_load_fallback "2,2".data).2.2 [2, 2] (by decide)⟩

/-- Claim C3: saving any permutation of the range from 1 to 70 and loading
again returns exactly that permutation. -/
theorem c3_save_load_roundtrip (p : List Int)
    (hp : List.Perm p identityOrder) :
    load_card_order (some (save_card_order p)) = p := by
  have hlen : p.length = 70 := by rw [hp.length_eq]; rfl
  refine load_save p ?_
  intro e
  rw [e] at hlen
  simp at hlen

/-- Claim C3 witness at the identity permutation. -/
theorem c3_witness :
    load_card_order (some (save_card_order identityOrder)) = identityOrder :=
  c3_save_load_roundtrip identityOrder (List.Perm.refl identityOrder)

/-- Success case of swap_cards, as one equation. -/
theorem swap_cards_pos {f : Option (List Char)} {a b : Int}
    (h : 0 ≤ a ∧ a < ((load_card_order f).length : Int) ∧
      0 ≤ b ∧ b < ((load_card_order f).length : Int)) :
    swap_cards f a b =
      (some (save_card_order
        (listSwap (load_card_order f) a.toNat b.toNat)), true) := by
  simp only [swap_cards]
  rw [if_pos h]

/-- Claim C4: on a persisted order that is a permutation of the range from
1 to 70 and in-range distinct positions, swap succeeds, the persisted order
stays a permutation, a second identical swap succeeds as well, and it
restores the original order. -/
theorem c4_swap_involutive (f : Option (List Char)) (a b : Int)
    (hperm : List.Perm (load_card_order f) identityOrder)
    (ha0 : 0 ≤ a) (ha : a < 70) (hb0 : 0 ≤ b) (hb : b < 70) (_hab : a ≠ b) :
    (swap_cards f a b).2 = true ∧
    List.Perm (load_card_order (swap_cards f a b).1) identityOrder ∧
    (swap_cards (swap_cards f a b).1 a b).2 = true ∧
    load_card_order (swap_cards (swap_cards f a b).1 a b).1 =
      load_card_order f := by
  have hlen : (load_card_order f).length = 70 := by
    rw [hperm.length_eq]
    rfl
  have hna : a.toNat < (load_card_order f).length := by
    rw [hlen]; omega
  have hnb : b.toNat < (load_card_order f).length := by
    rw [hlen]; omega
  have hcond : 0 ≤ a ∧ a < ((load_card_order f).length : Int) ∧
      0 ≤ b ∧ b < ((load_card_order f).length : Int) := by
    rw [hlen]
    exact ⟨ha0, by exact_mod_cast ha, hb0, by exact_mod_cast hb⟩
  have e1 : swap_cards f a b =
      (some (save_card_order
        (listSwap (load_card_order f) a.toNat b.toNat)), true) :=
    swap_cards_pos hcond
  have hswlen : (listSwap (load_card_order f) a.toNat b.toNat).length = 70 := by
    rw [length_listSwap, hlen]
  have hswne : listSwap (load_card_order f) a.toNat b.toNat ≠ [] := by
    intro e
    rw [e] at hswlen
    simp at hswlen
  have hload1 : load_card_order (swap_cards f a b).1 =
      listSwap (load_card_order f) a.toNat b.toNat := by
    rw [e1]
    exact load_save _ hswne
  have hperm1 : List.Perm (load_card_order (swap_cards f a b).1)
      identityOrder := by
    rw [hload1]
    exact (listSwap_perm hna hnb).trans hperm
  have hna2 : a.toNat < (load_card_order (swap_cards f a b).1).length := by
    rw [hload1, length_listSwap]
    exact hna
  have hnb2 : b.toNat < (load_card_order (swap_cards f a b).1).length := by
    rw [hload1, length_listSwap]
    exact hnb
  have hcond2 : 0 ≤ a ∧
      a < ((load_card_order (swap_cards f a b).1).length : Int) ∧
      0 ≤ b ∧
      b < ((load_card_order (swap_cards f a b).1).length : Int) := by
    rw [hload1, length_listSwap, hlen]
    exact ⟨ha0, by exact_mod_cast ha, hb0, by exact_mod_cast hb⟩
  have e2 : swap_cards (swap_cards f a b).1 a b =
      (some (save_card_order
        (listSwap (load_card_order (swap_cards f a b).1)
          a.toNat b.toNat)), true) :=
    swap_cards_pos hcond2
  have hback : listSwap (load_card_order (swap_cards f a b).1)
      a.toNat b.toNat = load_card_order f := by
    rw [hload1]
    exact listSwap_listSwap hna hnb
  refine ⟨by rw [e1], hperm1, by rw [e2], ?_⟩
  rw [e2]
  simp only
  rw [hback]
  refine load_save _ ?_
  intro e
  rw [e] at hlen
  simp at hlen

/-- Claim C4 witness: swapping positions 0 and 1 twice on the default order. -/
theorem c4_witness :
    (swap_cards none 0 1).2 = true ∧
    List.Perm (load_card_order (swap_cards none 0 1).1) identityOrder ∧
    (swap_cards (swap_cards none 0 1).1 0 1).2 = true ∧
    load_card_order (swap_cards (swap_cards none 0 1).1 0 1).1 =
      load_card_order none :=
  c4_swap_involutive none 0 1 (List.Perm.refl identityOrder) (by decide)
    (by decide) (by decide) (by decide) (by decide)

/-- Claim C5: with a position outside the loaded range, swap returns False
and leaves the persisted order file exactly as it was, writing nothing. -/
theorem c5_swap_out_of_range (f : Option (List Char)) (a b : Int)
    (h : ¬(0 ≤ a ∧ a < ((load_card_order f).length : Int) ∧
        0 ≤ b ∧ b < ((load_card_order f).length : Int))) :
    swap_cards f a b = (f, false) := by
  simp only [swap_cards]
  rw [if_neg h]

/-- Claim C5 witness: a negative position fails and the missing order file
stays missing. -/
theorem c5_witness : swap_cards none (-1) 0 = (none, false) :=
  c5_swap_out_of_range none (-1) 0 (by decide)

/-- Claim C2 counterexample: on an all-empty deck with the default order,
the outline export is not a string of exactly 70 lines (it splits on the
newline character into 73 pieces, because a title line and a blank line
precede the 70 entry lines), and no line of it reads 01. ○ [Card 1],
because the status marker spelled in the source is not the white circle
but a damaged three-character sequence. -/
theorem c2_counterexample :
    ((pySplitOn '\n' (export_outline "X".data none (fun _ => some []))).length
        ≠ 70 ∧
      (pySplitOn '\n'
          (export_outline "X".data none (fun _ => some []))).length ≠ 71) ∧
    "01. ○ [Card 1]".data ∉
      pySplitOn '\n' (export_outline "X".data none (fun _ => some [])) := by
  decide

/-- Claim C2 amended: outline export never skips entries. After a two-line
header (the title line and one blank line) it emits exactly one line per
position of the loaded order, whatever the cards hold, so the full output
splits on the newline character into the order length plus three pieces
(the last piece being the empty remainder after the final newline); and on
a deck of all-empty cards the entry block is exactly the per-position lines
in order of position, the line for position pos holding card c being pos
zero-padded to two digits, a dot and a space, the unwritten status marker
as spelled in the source, a space, and the bracketed card number. -/
theorem c2_outline_lines (name : List Char) (f : Option (List Char))
    (store : Int → Option (List Char)) (hn : ∀ c ∈ name, c ≠ '\n') :
    (pySplitOn '\n' (export_outline name f store)).length =
      (load_card_order f).length + 3 ∧
    export_outline name f (fun _ => some []) =
      "# ".data ++ name ++ " - Story Outline\n\n".data ++
        claimOutlineLines (load_card_order f) 1 := by
  constructor
  · rw [length_pySplitOn]
    unfold export_outline
    simp only [List.count_append]
    rw [count_nl_eq_zero (l := "# ".data) (by decide),
      count_nl_eq_zero hn,
      outlineEntries_count_nl,
      show (" - Story Outline\n\n".data).count '\n' = 2 by decide]
    omega
  · unfold export_outline
    rw [outlineEntries_empty_deck (fun _ => some [])
      (fun c => show get_card_title (some []) = [] by decide)
      (fun c => show is_card_written (some []) = false by decide)]

/-- Claim C2 amended, witness: with a one-letter project name, a missing
order file and an all-empty deck the export splits into 73 pieces and its
third line is the entry of position 1. -/
theorem c2_witness :
    (pySplitOn '\n'
      (export_outline "X".data none (fun _ => some []))).length = 73 ∧
    export_outline "X".data none (fun _ => some []) =
      "# ".data ++ "X".data ++ " - Story Outline\n\n".data ++
        claimOutlineLines identityOrder 1 := by
  have h := c2_outline_lines "X".data none (fun _ => some []) (by decide)
  exact ⟨by rw [h.1]; decide, h.2⟩

/-- Claim C6: the title extractor inspects only the first line of the
content: when the stripped first line is nonempty and begins with the
header marker, the title is that stripped line with the single leading
marker character removed and both ends stripped again (so a first line with
a doubled marker yields a title still prefixed with a marker); otherwise
the title is empty. In particular the three listed examples hold, among
them the doubled-marker quirk. -/
theorem c6_title_first_line (content : List Char) :
    (get_card_title (some content) =
      if (pyStrip ((pySplitOn '\n' content).headD [])).head? = some '#' then
        pyStrip ((pyStrip ((pySplitOn '\n' content).headD [])).drop 1)
      else []) ∧
    get_card_title (some "# Hello\nbody".data) = "Hello".data ∧
    get_card_title (some "plain text".data) = [] ∧
    get_card_title (some []) = [] ∧
    get_card_title (some "## X".data) = "# X".data := by
  refine ⟨?_, by decide, by decide, by decide, by decide⟩
  simp only [get_card_title]
  by_cases h1 : pyStrip content = []
  · rw [if_pos h1]
    have hall : ∀ c ∈ content, isPySpace c = true := pyStrip_eq_nil_iff.mp h1
    have hfl : pyStrip ((pySplitOn '\n' content).headD []) = [] :=
      pyStrip_eq_nil_iff.mpr fun c hc =>
        hall c (mem_of_mem_pySplitOn (headD_pySplitOn_mem '\n' content) hc)
    rw [hfl]
    simp
  · rw [if_neg h1]

/-- Claim C6 witness: the general first-line equation applied at a content
whose first line carries surrounding whitespace. -/
theorem c6_witness :
    get_card_title (some "  #  T  \nrest".data) =
      (if (pyStrip ((pySplitOn '\n' "  #  T  \nrest".data).headD
          [])).head? = some '#' then
        pyStrip ((pyStrip ((pySplitOn '\n'
          "  #  T  \nrest".data).headD [])).drop 1)
      else []) :=
  (c6_title_first_line "  #  T  \nrest".data).1

/-- Claim C7: a card is written exactly when, after splitting the content
into lines and dropping the blank (whitespace-only) lines, more than one
line remains, or exactly one line remains and that line, stripped, does not
start with the header marker; with the three listed examples. -/
theorem c7_is_written_iff (content : List Char) :
    (is_card_written (some content) = true ↔
      (1 < ((pySplitOn '\n' content).filter
          (fun l => decide (pyStrip l ≠ []))).length ∨
        (((pySplitOn '\n' content).filter
            (fun l => decide (pyStrip l ≠ []))).length = 1 ∧
          ¬(pyStrip (((pySplitOn '\n' content).filter
              (fun l => decide (pyStrip l ≠ []))).headD [])).head? =
            some '#'))) ∧
    is_card_written (some "# Title\n".data) = false ∧
    is_card_written (some "# Title\nSome body".data) = true ∧
    is_card_written (some "no header, one line".data) = true := by
  exact ⟨is_card_written_iff content, by decide, by decide, by decide⟩

/-- Claim C7 witness: the written predicate equation applied at a content
with one nonblank body line surrounded by blank lines. -/
theorem c7_witness :
    is_card_written (some " body \n \n".data) = true ↔
      (1 < ((pySplitOn '\n' " body \n \n".data).filter
          (fun l => decide (pyStrip l ≠ []))).length ∨
        (((pySplitOn '\n' " body \n \n".data).filter
            (fun l => decide (pyStrip l ≠ []))).length = 1 ∧
          ¬(pyStrip (((pySplitOn '\n' " body \n \n".data).filter
              (fun l => decide (pyStrip l ≠ []))).headD [])).head? =
            some '#')) :=
  (c7_is_written_iff " body \n \n".data).1

/-- Claim C8: removing a project id fails with an error exactly when the id
is absent (and then nothing is saved, so the registry is unchanged); when
the id is present only that entry is deleted, and when the removed id was
the last-project pointer the pointer moves to one of the remaining ids when
any remain and to none when none remain; when it was not the pointer, the
pointer is unchanged. -/
theorem c8_remove_project (c : Config) (id : List Char)
    (hnodup : (c.projects.map Prod.fst).Nodup) :
    (id ∉ c.projects.map Prod.fst →
      remove_project c id = Except.error "Project not found".data) ∧
    (id ∈ c.projects.map Prod.fst →
      ∃ c2, remove_project c id = Except.ok c2 ∧
        c2.projects.map Prod.fst = (c.projects.map Prod.fst).erase id ∧
        id ∉ c2.projects.map Prod.fst ∧
        (∀ p ∈ c.projects, p.1 ≠ id → p ∈ c2.projects) ∧
        (c.last_project = some id →
          (c2.projects ≠ [] →
            ∃ k, c2.last_project = some k ∧ k ∈ c2.projects.map Prod.fst) ∧
          (c2.projects = [] → c2.last_project = none)) ∧
        (c.last_project ≠ some id → c2.last_project = c.last_project)) := by
  constructor
  · intro h
    simp only [remove_project]
    rw [if_neg h]
  · intro h
    refine ⟨⟨c.projects.filter (fun p => decide (p.1 ≠ id)),
      if c.last_project = some id then
        ((c.projects.filter (fun p => decide (p.1 ≠ id))).map Prod.fst).head?
      else c.last_project⟩, ?_, ?_, ?_, ?_, ?_, ?_⟩
    · simp only [remove_project]
      rw [if_pos h]
    · rw [show (fun p : List Char × ProjectEntry => decide (p.1 ≠ id)) =
        ((fun k => decide (k ≠ id)) ∘ Prod.fst) from rfl]
      rw [← List.filter_map]
      rw [hnodup.erase_eq_filter id]
      congr 1
      funext k
      by_cases hk : k = id
      · subst hk
        simp [bne]
      · simp [bne, hk, beq_eq_false_iff_ne.mpr hk]
    · intro hmem
      obtain ⟨p, hp, hpk⟩ := List.mem_map.mp hmem
      have := (List.mem_filter.mp hp).2
      rw [hpk] at this
      simp at this
    · intro p hp hne
      exact List.mem_filter.mpr ⟨hp, by simp [hne]⟩
    · intro hlast
      rw [if_pos hlast]
      constructor
      · intro hne
        cases e : (c.projects.filter (fun p => decide (p.1 ≠ id))) with
        | nil => exact absurd e hne
        | cons p ps =>
          exact ⟨p.1, rfl, List.mem_map_of_mem Prod.fst (List.mem_cons_self p ps)⟩
      · intro hnil
        have h0 : c.projects.filter (fun p => decide (p.1 ≠ id)) = [] := hnil
        show ((c.projects.filter
          (fun p => decide (p.1 ≠ id))).map Prod.fst).head? = none
        rw [h0]
        rfl
    · intro hlast
      rw [if_neg hlast]

/-- Claim C8 witness: removing the only project, which is also the pointed
last project, from a one-entry registry. -/
theorem c8_witness :
    remove_project
        ⟨[("a".data, ⟨"A".data, "/a".data, "t".data⟩)], some "a".data⟩
        "a".data =
      Except.ok ⟨[], none⟩ ∧
    remove_project (⟨[], none⟩ : Config) "a".data =
      Except.error "Project not found".data := by
  constructor
  · obtain ⟨c2, he, hmap, -, -, hlast, -⟩ :=
      (c8_remove_project
        ⟨[("a".data, ⟨"A".data, "/a".data, "t".data⟩)], some "a".data⟩
        "a".data (by decide)).2 (by decide)
    have h2 : c2.projects = [] := by
      have hl := congrArg List.length hmap
      simp at hl
      exact hl
    have h3 : c2.last_project = none := (hlast rfl).2 h2
    rw [he]
    have : c2 = ⟨[], none⟩ := by
      cases c2
      simp_all
    rw [this]
  · exact (c8_remove_project ⟨[], none⟩ "a".data (by decide)).1 (by decide)

/-- Claim C9: the screenplay-markdown and fountain exports discard the
first line of every card unconditionally. The body a card contributes is
the stripped remainder after its first line, so the first line has no
influence on either export: replacing the first line of any one card by any
other newline-free line leaves both exports unchanged; and a card whose
whole content is one line contributes an empty body. -/
theorem c9_exports_drop_first_line (name now : List Char)
    (f : Option (List Char)) (store : Int → Option (List Char)) (k : Int)
    (a b rest : List Char) (ha : ∀ c ∈ a, c ≠ '\n')
    (hb : ∀ c ∈ b, c ≠ '\n') :
    card_body (a ++ '\n' :: rest) = pyStrip rest ∧
    export_screenplay_md name now f
        (updateStore store k (some (a ++ '\n' :: rest))) =
      export_screenplay_md name now f
        (updateStore store k (some (b ++ '\n' :: rest))) ∧
    export_fountain name now f
        (updateStore store k (some (a ++ '\n' :: rest))) =
      export_fountain name now f
        (updateStore store k (some (b ++ '\n' :: rest))) ∧
    card_body a = [] := by
  have hcong : ∀ c, card_body (get_card_content
      (updateStore store k (some (a ++ '\n' :: rest)) c)) =
      card_body (get_card_content
        (updateStore store k (some (b ++ '\n' :: rest)) c)) := by
    intro c
    unfold updateStore get_card_content
    by_cases hc : c = k
    · rw [if_pos hc, if_pos hc]
      simp only [Option.getD_some]
      rw [card_body_first_irrelevant rest ha,
        card_body_first_irrelevant rest hb]
    · rw [if_neg hc, if_neg hc]
  refine ⟨card_body_first_irrelevant rest ha, ?_, ?_, card_body_single ha⟩
  · unfold export_screenplay_md
    rw [screenplayEntries_congr hcong]
  · unfold export_fountain
    rw [fountainEntries_congr hcong]

/-- Claim C9 witness: on a concrete deck, replacing the non-header first
line of card 1 changes neither export. -/
theorem c9_witness :
    export_screenplay_md "P".data "T".data none
        (updateStore (fun _ => none) 1 (some "first\nbody".data)) =
      export_screenplay_md "P".data "T".data none
        (updateStore (fun _ => none) 1 (some "other\nbody".data)) ∧
    export_fountain "P".data "T".data none
        (updateStore (fun _ => none) 1 (some "first\nbody".data)) =
      export_fountain "P".data "T".data none
        (updateStore (fun _ => none) 1 (some "other\nbody".data)) := by
  have h := c9_exports_drop_first_line "P".data "T".data none
    (fun _ => none) 1 "first".data "other".data "body".data
    (by decide) (by decide)
  exact ⟨h.2.1, h.2.2.1⟩

/-- Claim C10 counterexample: for the non-empty title holding a line break
between A and B, renaming a missing card creates the file, but the derived
title is just A, not the trimmed new title, and the card counts as written.
So the claim fails as stated for every non-empty newTitle. -/
theorem c10_counterexample :
    pyStrip "A\nB".data ≠ [] ∧
    rename_card none "A\nB".data = some "# A\nB\n\n".data ∧
    get_card_title (rename_card none "A\nB".data) = "A".data ∧
    get_card_title (rename_card none "A\nB".data) ≠ pyStrip "A\nB".data ∧
    is_card_written (rename_card none "A\nB".data) = true := by
  decide

/-- Claim C10 amended: for every newTitle that is non-empty after trimming
and contains no line break, renaming a missing card creates the file with
the header marker, a space, the new title verbatim and two trailing
newlines; afterwards the derived title equals the trimmed newTitle while
the card still counts as unwritten. -/
theorem c10_rename_missing (t : List Char) (h1 : pyStrip t ≠ [])
    (h2 : ∀ c ∈ t, c ≠ '\n') :
    rename_card none t = some ("# ".data ++ t ++ "\n\n".data) ∧
    get_card_title (rename_card none t) = pyStrip t ∧
    is_card_written (rename_card none t) = false := by
  have e : rename_card none t = some ("# ".data ++ t ++ "\n\n".data) := by
    simp only [rename_card]
    rw [if_pos h1]
  have hcontent : "# ".data ++ t ++ "\n\n".data =
      ('#' :: ' ' :: t) ++ '\n' :: "\n".data := by
    simp
  have hnosep : ∀ c ∈ '#' :: ' ' :: t, c ≠ '\n' := by
    intro c hc
    rcases List.mem_cons.mp hc with rfl | hc2
    · decide
    · rcases List.mem_cons.mp hc2 with rfl | hc3
      · decide
      · exact h2 c hc3
  have hsplit : pySplitOn '\n' (('#' :: ' ' :: t) ++ '\n' :: "\n".data) =
      ('#' :: ' ' :: t) :: [[], []] := by
    rw [pySplitOn_append_sep _ hnosep]
    rfl
  have hsrt : pyStripRight t ≠ [] := by
    intro hcontra
    exact h1 (pyStrip_eq_nil_iff.mpr (pyStripRight_eq_nil_iff.mp hcontra))
  have hsr1 : pyStripRight (' ' :: t) = ' ' :: pyStripRight t :=
    pyStripRight_append (a := [' ']) hsrt
  have hfl : pyStrip ('#' :: ' ' :: t) = '#' :: ' ' :: pyStripRight t := by
    rw [pyStrip_cons_of_nonspace (by decide), hsr1]
  have hns : pyStrip ("# ".data ++ t ++ "\n\n".data) ≠ [] := by
    intro hcontra
    have hall := pyStrip_eq_nil_iff.mp hcontra
    have hsharp : isPySpace '#' = true := by
      refine hall '#' ?_
      rw [hcontent]
      exact List.mem_cons_self ..
    exact absurd hsharp (by decide)
  have hN : (pySplitOn '\n' ("# ".data ++ t ++ "\n\n".data)).filter
      (fun l => decide (pyStrip l ≠ [])) = ['#' :: ' ' :: t] := by
    rw [hcontent, hsplit]
    simp [List.filter, hfl, show pyStrip [] = ([] : List Char) from rfl]
  refine ⟨e, ?_, ?_⟩
  · rw [e]
    simp only [get_card_title]
    rw [if_neg hns]
    rw [show (pySplitOn '\n' ("# ".data ++ t ++ "\n\n".data)).headD [] =
        '#' :: ' ' :: t by rw [hcontent, hsplit]; rfl]
    rw [hfl]
    rw [if_pos (show ('#' :: ' ' :: pyStripRight t).head? = some '#'
      from rfl)]
    rw [show ('#' :: ' ' :: pyStripRight t).drop 1 =
        [' '] ++ pyStripRight t from rfl]
    rw [pyStrip_append_space _ (by decide), pyStrip_pyStripRight]
  · rw [e]
    have hiff := is_card_written_iff ("# ".data ++ t ++ "\n\n".data)
    rw [hN] at hiff
    cases hw : is_card_written (some ("# ".data ++ t ++ "\n\n".data)) with
    | false => rfl
    | true =>
      exfalso
      rcases hiff.mp hw with h3 | ⟨h3, h4⟩
      · simp at h3
      · apply h4
        show (pyStrip ('#' :: ' ' :: t)).head? = some '#'
        rw [hfl]
        rfl

/-- Claim C10 amended, witness: renaming a missing card to the one-word
title A. -/
theorem c10_witness :
    rename_card none "A".data = some ("# ".data ++ "A".data ++ "\n\n".data) ∧
    get_card_title (rename_card none "A".data) = pyStrip "A".data ∧
    is_card_written (rename_card none "A".data) = false :=
  c10_rename_missing "A".data (by decide) (by decide)
